import Mathlib

/-!
Verification of the leader-side proposal quota controller from
`pkg/kv/kvserver/replica_proposal_quota.go`.

The Go code is embedded shallowly: machine integers become `Nat`,
Go slices become `List`, nilable pointers become `Option`, maps become
association lists, and `log.Fatal` becomes an explicit `fatal` result
constructor.  The `quotapool.IntPool` implementation is not part of the
sources, so the pool is modelled from the specification (§4.1) where the
tick path needs it: a capacity, an available count, a closed flag with a
close reason, and (for the FIFO fairness claim) a wait queue.
-/

namespace ProposalQuota

/-! Replica identities, raft log indexes, wall-clock times and allocation
handles (`quotapool.IntAlloc`, observable through its token amount) are all
embedded as `Nat`. -/

/-- Modelled from the spec: the bounded token pool `quotapool.IntPool`
(its implementation is outside the given sources).  §4.1: a bounded
counting semaphore; `Close(reason)` fails waiters and records a reason;
`Release` of allocations against a closed pool is a no-op. -/
structure IntPool where
  capacity : Nat
  avail : Nat
  closed : Bool
  closeReason : Option String
deriving Repr, DecidableEq

/-- Modelled from the spec: `quotapool.NewIntPool` creates an open pool with
all tokens available. -/
def newIntPool (c : Nat) : IntPool :=
  { capacity := c, avail := c, closed := false, closeReason := none }

/-- Modelled from the spec: `IntPool.Close(reason)` marks the pool closed,
recording the reason (idempotent; first reason kept). -/
def IntPool.close (p : IntPool) (reason : String) : IntPool :=
  if p.closed then p
  else { p with closed := true, closeReason := some reason }

/-- Modelled from the spec: `IntPool.Release(allocs...)` returns tokens to an
open pool, capped at capacity; a no-op on a closed pool. -/
def IntPool.release (p : IntPool) (allocs : List Nat) : IntPool :=
  if p.closed then p
  else { p with avail := min p.capacity (p.avail + allocs.sum) }

/-- Embeds `roachpb.ReplicaDescriptor` (only the identity is consumed). -/
structure ReplicaDescriptor where
  replicaID : Nat
deriving Repr, DecidableEq

/-- Embeds `roachpb.RangeDescriptor`: the start key (as bytes) and the
replica set. -/
structure RangeDescriptor where
  startKey : List Nat
  internalReplicas : List ReplicaDescriptor
deriving Repr, DecidableEq

/-- Embeds `desc.GetReplicaDescriptorByID`: find the replica descriptor with
the given ID. -/
def RangeDescriptor.getReplicaDescriptorByID
    (desc : RangeDescriptor) (id : Nat) : Option ReplicaDescriptor :=
  desc.internalReplicas.find? (fun rep => rep.replicaID == id)

/-- Embeds `tracker.Progress` (only `Match` is consumed by this code). -/
structure Progress where
  Match : Nat
deriving Repr, DecidableEq

/-- Embeds `raft.BasicStatus` (the fields consumed here). -/
structure BasicStatus where
  applied : Nat
  commit : Nat
deriving Repr, DecidableEq

/-- Modelled from the spec: `lastUpdateTimesMap.isFollowerActiveSince`
(defined outside the given sources).  §4.3: a peer is live iff
`now − lastUpdateTimes[p] ≤ L_lease`; a peer with no recorded update time
is not live.  With `Nat` times the comparison is phrased additively. -/
def isFollowerActiveSince
    (times : Option (List (Nat × Nat))) (id : Nat)
    (now : Nat) (leaseDuration : Nat) : Bool :=
  match times with
  | none => false
  | some m =>
    match m.lookup id with
    | none => false
    | some t => now ≤ t + leaseDuration

/-- Modelled from the spec: `lastUpdateTimesMap.updateOnBecomeLeader`
(defined outside the given sources).  §4.4: seed `now` for every member of
the descriptor. -/
def updateOnBecomeLeader
    (reps : List ReplicaDescriptor) (now : Nat) : List (Nat × Nat) :=
  reps.map (fun rep => (rep.replicaID, now))

/-- The `r.mu` fields read and written by `updateProposalQuotaRaftMuLocked`. -/
structure ReplicaMu where
  leaderID : Nat
  proposalQuota : Option IntPool
  proposalQuotaBaseIndex : Nat
  quotaReleaseQueue : List Nat
  lastUpdateTimes : Option (List (Nat × Nat))
  pausedFollowers : List Nat
  lastReplicaAdded : Nat
  lastReplicaAddedTime : Nat
  lastProposalAtTicks : Nat
  ticks : Nat
  desc : RangeDescriptor
deriving Repr, DecidableEq

/-- The per-replica configuration consumed by the tick path. -/
structure ReplicaConfig where
  replicaID : Nat
  raftProposalQuota : Nat
  rangeLeaseDuration : Nat
deriving Repr, DecidableEq

/-- Result of one call to `updateProposalQuotaRaftMuLocked`.  `log.Fatal`
becomes the `fatal` constructor.  `ok` carries the post-state and, for the
leader→follower branch, the closed pool after the final `Release` (which the
Go code drops; retaining it makes the close/release effects observable). -/
inductive TickResult
  | fatal (msg : String)
  | ok (st : ReplicaMu) (retiredPool : Option IntPool)
deriving Repr, DecidableEq

/-- Accumulator of the `WithProgress` closure: `minIndex` plus the
new-replica tracking fields it may clear. -/
structure LoopState where
  minIndex : Nat
  lastReplicaAdded : Nat
  lastReplicaAddedTime : Nat
deriving Repr, DecidableEq

/-- Embeds the body of the `WithProgress` closure in
`updateProposalQuotaRaftMuLocked` for one peer: look the peer up in the
descriptor, skip it unless it is active, at or past the base index, and not
paused; then lower `minIndex` to a positive `Match` and clear the
most-recently-added-replica tracking if that peer has caught up to the
commit index. -/
def progressStep (r : ReplicaConfig) (st : ReplicaMu) (now : Nat)
    (commitIndex : Nat) (acc : LoopState)
    (peer : Nat × Progress) : LoopState :=
  match st.desc.getReplicaDescriptorByID peer.1 with
  | none => acc
  | some rep =>
    if !(isFollowerActiveSince st.lastUpdateTimes rep.replicaID now
        r.rangeLeaseDuration) then
      acc
    else if peer.2.Match < st.proposalQuotaBaseIndex then
      acc
    else if st.pausedFollowers.contains peer.1 then
      acc
    else
      let acc :=
        if 0 < peer.2.Match ∧ peer.2.Match < acc.minIndex then
          { acc with minIndex := peer.2.Match }
        else acc
      if rep.replicaID = acc.lastReplicaAdded ∧ commitIndex ≤ peer.2.Match then
        { acc with lastReplicaAdded := 0, lastReplicaAddedTime := 0 }
      else acc

/-- Embeds `r.mu.internalRaftGroup.WithProgress(...)`: fold the closure over
the enumerated peers. -/
def progressLoop (r : ReplicaConfig) (st : ReplicaMu) (now : Nat)
    (commitIndex : Nat) (peers : List (Nat × Progress))
    (acc : LoopState) : LoopState :=
  peers.foldl (progressStep r st now commitIndex) acc

/-- The fatal message of the end-of-tick invariant assertion. -/
def assertMsg : String :=
  "proposalQuotaBaseIndex + quotaReleaseQueueLen must equal the applied index"

/-- Embeds `updateProposalQuotaRaftMuLocked`.  Inputs: the configuration,
the `r.mu` state, the raft `BasicStatus`, the peers enumerated by
`WithProgress`, the current physical time, and the previous tick's leader. -/
def updateProposalQuotaRaftMuLocked (r : ReplicaConfig) (st : ReplicaMu)
    (status : BasicStatus) (peers : List (Nat × Progress))
    (now : Nat) (lastLeaderID : Nat) : TickResult :=
  if st.leaderID ≠ lastLeaderID then
    if r.replicaID = st.leaderID then
      -- We're becoming the leader.
      if st.proposalQuota.isSome then
        .fatal "proposalQuota was not nil before becoming the leader"
      else if st.quotaReleaseQueue.length ≠ 0 then
        .fatal "len(quotaReleaseQueue) expected 0"
      else
        .ok { st with
              proposalQuotaBaseIndex := status.applied,
              proposalQuota := some (newIntPool r.raftProposalQuota),
              lastUpdateTimes :=
                some (updateOnBecomeLeader st.desc.internalReplicas now),
              lastProposalAtTicks := st.ticks } none
    else
      match st.proposalQuota with
      | some pool =>
        -- We're becoming a follower.
        let pool := pool.close "leader change"
        let pool := pool.release st.quotaReleaseQueue
        .ok { st with
              quotaReleaseQueue := [],
              proposalQuota := none,
              lastUpdateTimes := none } (some pool)
      | none => .ok st none
  else
    match st.proposalQuota with
    | none =>
      if r.replicaID = st.leaderID then
        .fatal "leader has uninitialized proposalQuota pool"
      else
        -- We're a follower.
        .ok st none
    | some pool =>
      -- We're still the leader.
      let commitIndex := status.commit
      let acc := progressLoop r st now commitIndex peers
        { minIndex := status.applied,
          lastReplicaAdded := st.lastReplicaAdded,
          lastReplicaAddedTime := st.lastReplicaAddedTime }
      let minIndex := acc.minIndex
      let st := { st with lastReplicaAdded := acc.lastReplicaAdded,
                          lastReplicaAddedTime := acc.lastReplicaAddedTime }
      let st :=
        if st.proposalQuotaBaseIndex < minIndex then
          let numReleases := minIndex - st.proposalQuotaBaseIndex
          { st with
            proposalQuota :=
              some (pool.release (st.quotaReleaseQueue.take numReleases)),
            quotaReleaseQueue := st.quotaReleaseQueue.drop numReleases,
            proposalQuotaBaseIndex := st.proposalQuotaBaseIndex + numReleases }
        else { st with proposalQuota := some pool }
      let releasableIndex :=
        st.proposalQuotaBaseIndex + st.quotaReleaseQueue.length
      if releasableIndex ≠ status.applied then
        .fatal assertMsg
      else
        .ok st none

/-- Embeds the consumed flags of `kvpb.BatchRequest`. -/
structure BatchRequest where
  isSingleRequestLeaseRequest : Bool
  isSingleTransferLeaseRequest : Bool
deriving Repr, DecidableEq

/-- Errors the pool's `Acquire` may return; `closed` embeds
`quotapool.ErrClosed`, everything else is an opaque non-closed error
(e.g. context cancellation). -/
inductive AcquireErr
  | closed (reason : String)
  | cancelled
  | other (code : Nat)
deriving Repr, DecidableEq

/-- Embeds `errors.HasType(err, (*quotapool.ErrClosed)(nil))` on an
optional error. -/
def isClosedErr : Option AcquireErr → Bool
  | some (.closed _) => true
  | _ => false

/-- The byte string of `keys.NodeLivenessPrefix` (the reserved key marking
the node-liveness range): `/System/NodeLiveness`, i.e. the system-key byte
0x00 followed by "liveness-". -/
def nodeLivenessKeyBytes : List Nat :=
  [0, 108, 105, 118, 101, 110, 101, 115, 115, 45]

/-- Embeds `bytes.HasPrefix(k, pre)`: `k` starts with the bytes `pre`. -/
def bytesStartWith (k pre : List Nat) : Bool :=
  k.take pre.length == pre

/-- Embeds `quotaPoolEnabledForRange`: the quota pool is disabled for the
node-liveness range, identified by its reserved key on the descriptor. -/
def quotaPoolEnabledForRange (desc : RangeDescriptor) : Bool :=
  !(bytesStartWith desc.startKey nodeLivenessKeyBytes)

/-- Result of `maybeAcquireProposalQuota`: the Go return pair
`(*quotapool.IntAlloc, error)`, plus a flag recording whether the pool's
`Acquire` was actually reached (so short-circuit paths are observable). -/
structure FacadeResult where
  alloc : Option Nat
  err : Option AcquireErr
  acquiredFromPool : Bool
deriving Repr, DecidableEq

/-- Embeds `maybeAcquireProposalQuota`.  Since the pool's `Acquire` is
concurrent code outside the sources, its outcome is supplied as the input
`acquireResult` (the Go pair `quotaPool.Acquire` would return); the façade
decides whether to consult it and how to map its error. -/
def maybeAcquireProposalQuota (ba : BatchRequest) (enabled : Bool)
    (pool : Option IntPool) (desc : RangeDescriptor)
    (acquireResult : Option Nat × Option AcquireErr) : FacadeResult :=
  if ba.isSingleRequestLeaseRequest || ba.isSingleTransferLeaseRequest then
    { alloc := none, err := none, acquiredFromPool := false }
  else if !enabled then
    { alloc := none, err := none, acquiredFromPool := false }
  else if pool.isNone then
    { alloc := none, err := none, acquiredFromPool := false }
  else if !(quotaPoolEnabledForRange desc) then
    { alloc := none, err := none, acquiredFromPool := false }
  else
    let alloc := acquireResult.1
    let err := acquireResult.2
    -- Let quotapool errors due to being closed pass through.
    let err := if isClosedErr err then none else err
    { alloc := alloc, err := err, acquiredFromPool := true }

/-- A waiter in the pool's FIFO acquisition queue. -/
structure Waiter where
  id : Nat
  amount : Nat
deriving Repr, DecidableEq

/-- Modelled from the spec: the grant step of the pool's FIFO wait queue
(§4.1, §5; the `quotapool` implementation is outside the sources).  A
waiter completes only when it is at the head of the queue and its amount
fits in the available tokens; granting proceeds from the head and stops at
the first waiter that does not fit, never skipping ahead.  Returns the
granted waiters in completion order, the remaining tokens, and the
remaining queue. -/
def grantReady : Nat → List Waiter → List Waiter × Nat × List Waiter
  | avail, [] => ([], avail, [])
  | avail, w :: ws =>
    if w.amount ≤ avail then
      let rest := grantReady (avail - w.amount) ws
      (w :: rest.1, rest.2.1, rest.2.2)
    else
      ([], avail, w :: ws)

/-- Spec-side formulation (§4.3 step 2) of which peers participate in
holding up quota: the peer is in the current range descriptor, is live, has
`Match` at or past the base index, is not paused, and has positive `Match`.
To be compared against the loop embedded from the source. -/
def peerCounts (r : ReplicaConfig) (st : ReplicaMu) (now : Nat)
    (peer : Nat × Progress) : Bool :=
  (st.desc.getReplicaDescriptorByID peer.1).isSome &&
  isFollowerActiveSince st.lastUpdateTimes peer.1 now r.rangeLeaseDuration &&
  decide (st.proposalQuotaBaseIndex ≤ peer.2.Match) &&
  !(st.pausedFollowers.contains peer.1) &&
  decide (0 < peer.2.Match)

/-- Spec-side formulation (§4.3 steps 1–2) of the reconciler's minimum
index: start from the applied index and take the minimum of `Match` over
the peers that count. -/
def quorumMinIndex (r : ReplicaConfig) (st : ReplicaMu) (now : Nat)
    (peers : List (Nat × Progress)) (applied : Nat) : Nat :=
  (peers.filter (peerCounts r st now)).foldl
    (fun m p => min m p.2.Match) applied

/-- The condition under which one peer record clears the new-replica
tracking fields for tracked replica `a`: the peer passes the descriptor,
liveness, base-index and paused filters, is the tracked replica, and has
caught up to the commit index. -/
def clearsTracking (r : ReplicaConfig) (st : ReplicaMu) (now : Nat)
    (commitIndex : Nat) (a : Nat)
    (peer : Nat × Progress) : Bool :=
  (st.desc.getReplicaDescriptorByID peer.1).isSome &&
  isFollowerActiveSince st.lastUpdateTimes peer.1 now r.rangeLeaseDuration &&
  decide (st.proposalQuotaBaseIndex ≤ peer.2.Match) &&
  !(st.pausedFollowers.contains peer.1) &&
  (peer.1 == a) &&
  decide (commitIndex ≤ peer.2.Match)

/-- The state produced by the reconciliation part of the still-leader
branch: run the progress loop, then release the queue's leading entries and
advance the base index when the minimum index moved past it. -/
def reconciledState (r : ReplicaConfig) (st : ReplicaMu)
    (status : BasicStatus) (peers : List (Nat × Progress))
    (now : Nat) (pool : IntPool) : ReplicaMu :=
  let acc := progressLoop r st now status.commit peers
    { minIndex := status.applied,
      lastReplicaAdded := st.lastReplicaAdded,
      lastReplicaAddedTime := st.lastReplicaAddedTime }
  let minIndex := acc.minIndex
  let st := { st with lastReplicaAdded := acc.lastReplicaAdded,
                      lastReplicaAddedTime := acc.lastReplicaAddedTime }
  if st.proposalQuotaBaseIndex < minIndex then
    let numReleases := minIndex - st.proposalQuotaBaseIndex
    { st with
      proposalQuota :=
        some (pool.release (st.quotaReleaseQueue.take numReleases)),
      quotaReleaseQueue := st.quotaReleaseQueue.drop numReleases,
      proposalQuotaBaseIndex := st.proposalQuotaBaseIndex + numReleases }
  else { st with proposalQuota := some pool }

/-- The still-leader branch of `updateProposalQuotaRaftMuLocked` as a
standalone function, for stating per-branch properties. -/
def stillLeaderTick (r : ReplicaConfig) (st : ReplicaMu)
    (status : BasicStatus) (peers : List (Nat × Progress))
    (now : Nat) (pool : IntPool) : TickResult :=
  let st := reconciledState r st status peers now pool
  let releasableIndex :=
    st.proposalQuotaBaseIndex + st.quotaReleaseQueue.length
  if releasableIndex ≠ status.applied then
    .fatal assertMsg
  else
    .ok st none

/-! ### Concrete states used by witnesses and counterexamples -/

/-- A two-replica descriptor used by concrete witnesses. -/
def descW : RangeDescriptor :=
  { startKey := [100], internalReplicas := [⟨1⟩, ⟨2⟩] }

/-- A concrete configuration for replica 1. -/
def cfgW1 : ReplicaConfig :=
  { replicaID := 1, raftProposalQuota := 100, rangeLeaseDuration := 9 }

/-- A concrete configuration for replica 2. -/
def cfgW2 : ReplicaConfig :=
  { replicaID := 2, raftProposalQuota := 100, rangeLeaseDuration := 9 }

/-- A concrete open pool with 40 of 100 tokens available. -/
def poolW : IntPool :=
  { capacity := 100, avail := 40, closed := false, closeReason := none }

/-- A concrete state of a replica that just became leader. -/
def stW3 : ReplicaMu :=
  { leaderID := 1, proposalQuota := none, proposalQuotaBaseIndex := 0,
    quotaReleaseQueue := [], lastUpdateTimes := none,
    pausedFollowers := [], lastReplicaAdded := 0,
    lastReplicaAddedTime := 0, lastProposalAtTicks := 0, ticks := 7,
    desc := descW }

/-- A concrete state of a replica that just lost leadership to replica 1. -/
def stW4 : ReplicaMu :=
  { leaderID := 1, proposalQuota := some poolW,
    proposalQuotaBaseIndex := 3, quotaReleaseQueue := [10, 20],
    lastUpdateTimes := some [(2, 0)], pausedFollowers := [],
    lastReplicaAdded := 0, lastReplicaAddedTime := 0,
    lastProposalAtTicks := 0, ticks := 4, desc := descW }

/-- A concrete descriptor carrying the node-liveness key as its start key. -/
def descLiveness : RangeDescriptor :=
  { startKey := nodeLivenessKeyBytes ++ [55], internalReplicas := [⟨1⟩] }

/-- A concrete state of a follower (replica 2, leader is replica 1, no
transition) that still holds a live pool: the state the spec says the tick
handler must reject fatally. -/
def stC5 : ReplicaMu :=
  { leaderID := 1, proposalQuota := some poolW,
    proposalQuotaBaseIndex := 5, quotaReleaseQueue := [],
    lastUpdateTimes := some [(1, 0), (2, 0)], pausedFollowers := [],
    lastReplicaAdded := 0, lastReplicaAddedTime := 0,
    lastProposalAtTicks := 0, ticks := 4, desc := descW }

/-- A concrete leader state (replica 1) whose most recently added replica
is replica 2, with replica 2 paused. -/
def stC8 : ReplicaMu :=
  { leaderID := 1, proposalQuota := some poolW,
    proposalQuotaBaseIndex := 5, quotaReleaseQueue := [],
    lastUpdateTimes := some [(1, 4), (2, 4)], pausedFollowers := [2],
    lastReplicaAdded := 2, lastReplicaAddedTime := 9,
    lastProposalAtTicks := 0, ticks := 4, desc := descW }

/-- A concrete leader state for reconciliation witnesses: base 3, two
queued allocations. -/
def stC1 : ReplicaMu :=
  { leaderID := 1, proposalQuota := some poolW,
    proposalQuotaBaseIndex := 3, quotaReleaseQueue := [10, 20],
    lastUpdateTimes := some [(1, 4), (2, 4)], pausedFollowers := [],
    lastReplicaAdded := 0, lastReplicaAddedTime := 0,
    lastProposalAtTicks := 0, ticks := 4, desc := descW }

/-- A concrete leader state like `stC8` but with replica 2 not paused. -/
def stC8b : ReplicaMu :=
  { leaderID := 1, proposalQuota := some poolW,
    proposalQuotaBaseIndex := 5, quotaReleaseQueue := [],
    lastUpdateTimes := some [(1, 4), (2, 4)], pausedFollowers := [],
    lastReplicaAdded := 2, lastReplicaAddedTime := 9,
    lastProposalAtTicks := 0, ticks := 4, desc := descW }

/-! ## Lifecycle claims -/

/-- **C3.** On the tick where the replica first observes itself as leader
(the observed leader differs from the previous tick's and equals this
replica), the handler fails fatally unless the pool is nil and the release
queue is empty; otherwise it sets the base index to the applied index,
allocates a fresh pool of the configured capacity, installs a fresh
`lastUpdateTimes` map seeded with the current time for every member of the
descriptor, and resets the proposal last-seen tick counter. -/
theorem becoming_leader_spec (r : ReplicaConfig) (st : ReplicaMu)
    (status : BasicStatus) (peers : List (Nat × Progress))
    (now : Nat) (lastLeaderID : Nat)
    (h1 : st.leaderID ≠ lastLeaderID) (h2 : r.replicaID = st.leaderID) :
    (st.proposalQuota = none ∧ st.quotaReleaseQueue = [] →
      updateProposalQuotaRaftMuLocked r st status peers now lastLeaderID =
        .ok { st with
              proposalQuotaBaseIndex := status.applied,
              proposalQuota := some (newIntPool r.raftProposalQuota),
              lastUpdateTimes :=
                some (updateOnBecomeLeader st.desc.internalReplicas now),
              lastProposalAtTicks := st.ticks } none) ∧
    (st.proposalQuota ≠ none ∨ st.quotaReleaseQueue ≠ [] →
      ∃ msg, updateProposalQuotaRaftMuLocked r st status peers now
        lastLeaderID = .fatal msg) := by
  constructor
  · rintro ⟨hq, hqueue⟩
    simp [updateProposalQuotaRaftMuLocked, h1, h2, hq, hqueue]
  · intro h
    rcases h with h | h
    · rcases Option.ne_none_iff_exists.mp h with ⟨p, hp⟩
      exact ⟨"proposalQuota was not nil before becoming the leader",
        by simp [updateProposalQuotaRaftMuLocked, h1, h2, ← hp]⟩
    · rcases hpool : st.proposalQuota with _ | p
      · exact ⟨"len(quotaReleaseQueue) expected 0",
          by simp [updateProposalQuotaRaftMuLocked, h1, h2, hpool, h]⟩
      · exact ⟨"proposalQuota was not nil before becoming the leader",
          by simp [updateProposalQuotaRaftMuLocked, h1, h2, hpool]⟩

/-- Witness for `becoming_leader_spec` at a concrete input. -/
theorem becoming_leader_spec_witness :
    updateProposalQuotaRaftMuLocked cfgW1 stW3
      { applied := 5, commit := 5 } [] 3 0 =
      .ok { stW3 with
            proposalQuotaBaseIndex := 5,
            proposalQuota := some (newIntPool 100),
            lastUpdateTimes := some [(1, 3), (2, 3)],
            lastProposalAtTicks := 7 } none :=
  (becoming_leader_spec cfgW1 stW3 { applied := 5, commit := 5 } [] 3 0
    (by decide) (by decide)).1 ⟨rfl, rfl⟩

/-- **C4.** On the tick where the replica observes it is no longer leader
while holding a non-nil pool, the handler closes the pool with reason
"leader change", releases every allocation remaining in the release queue
against the closed pool (a no-op for the available tokens), and sets the
pool, the queue and `lastUpdateTimes` to nil. -/
theorem becoming_follower_spec (r : ReplicaConfig) (st : ReplicaMu)
    (status : BasicStatus) (peers : List (Nat × Progress))
    (now : Nat) (lastLeaderID : Nat) (pool : IntPool)
    (h1 : st.leaderID ≠ lastLeaderID) (h2 : r.replicaID ≠ st.leaderID)
    (h3 : st.proposalQuota = some pool) :
    updateProposalQuotaRaftMuLocked r st status peers now lastLeaderID =
      .ok { st with
            quotaReleaseQueue := [],
            proposalQuota := none,
            lastUpdateTimes := none }
        (some ((pool.close "leader change").release st.quotaReleaseQueue)) ∧
    (pool.close "leader change").closed = true ∧
    (pool.closed = false →
      (pool.close "leader change").closeReason = some "leader change") ∧
    ((pool.close "leader change").release st.quotaReleaseQueue).avail =
      (pool.close "leader change").avail := by
  refine ⟨by simp [updateProposalQuotaRaftMuLocked, h1, h2, h3], ?_, ?_, ?_⟩
  · by_cases hc : pool.closed <;> simp [IntPool.close, hc]
  · intro hc; simp [IntPool.close, hc]
  · by_cases hc : pool.closed <;>
      simp [IntPool.close, IntPool.release, hc]

/-- Witness for `becoming_follower_spec` at a concrete input. -/
theorem becoming_follower_spec_witness :
    updateProposalQuotaRaftMuLocked cfgW2 stW4
      { applied := 5, commit := 5 } [] 3 2 =
      .ok { stW4 with
            quotaReleaseQueue := [],
            proposalQuota := none,
            lastUpdateTimes := none }
        (some { capacity := 100, avail := 40, closed := true,
                closeReason := some "leader change" }) :=
  (becoming_follower_spec cfgW2 stW4 { applied := 5, commit := 5 } [] 3 2
    poolW (by decide) (by decide) rfl).1

/-! ## Façade claims -/

/-- **C6.** When the façade reaches the pool's `Acquire` (no lease
short-circuit, feature enabled, pool non-nil, range not excluded), a
`Closed` error from `Acquire` is mapped to a nil error (the allocation, nil
on such an error, passes through), while every other `Acquire` outcome is
returned unchanged. -/
theorem acquire_closed_mapped_to_nil (ba : BatchRequest) (pool : IntPool)
    (desc : RangeDescriptor)
    (acquireResult : Option Nat × Option AcquireErr)
    (hlease : ba.isSingleRequestLeaseRequest = false)
    (htransfer : ba.isSingleTransferLeaseRequest = false)
    (hrange : quotaPoolEnabledForRange desc = true) :
    (∀ reason, acquireResult.2 = some (.closed reason) →
      maybeAcquireProposalQuota ba true (some pool) desc acquireResult =
        { alloc := acquireResult.1, err := none,
          acquiredFromPool := true }) ∧
    (isClosedErr acquireResult.2 = false →
      maybeAcquireProposalQuota ba true (some pool) desc acquireResult =
        { alloc := acquireResult.1, err := acquireResult.2,
          acquiredFromPool := true }) := by
  constructor
  · intro reason hclosed
    simp [maybeAcquireProposalQuota, hlease, htransfer, hrange, hclosed,
      isClosedErr]
  · intro hnot
    simp [maybeAcquireProposalQuota, hlease, htransfer, hrange, hnot]

/-- Witness for `acquire_closed_mapped_to_nil` at a concrete input: a
`Closed` error is swallowed. -/
theorem acquire_closed_mapped_to_nil_witness :
    maybeAcquireProposalQuota ⟨false, false⟩ true (some poolW) descW
      (none, some (.closed "leader change")) =
      { alloc := none, err := none, acquiredFromPool := true } :=
  (acquire_closed_mapped_to_nil ⟨false, false⟩ poolW descW
    (none, some (.closed "leader change")) rfl rfl (by decide)).1
    "leader change" rfl

/-- **C7.** For any batch request against a range whose descriptor start key
has the node-liveness key's bytes as its initial bytes, the façade returns
no allocation and no error without consulting the pool's `Acquire`,
whatever the pool and the prospective acquire outcome. -/
theorem liveness_range_bypasses_quota (ba : BatchRequest) (enabled : Bool)
    (pool : Option IntPool) (desc : RangeDescriptor)
    (acquireResult : Option Nat × Option AcquireErr)
    (h : bytesStartWith desc.startKey nodeLivenessKeyBytes = true) :
    maybeAcquireProposalQuota ba enabled pool desc acquireResult =
      { alloc := none, err := none, acquiredFromPool := false } := by
  have hrange : quotaPoolEnabledForRange desc = false := by
    simp [quotaPoolEnabledForRange, h]
  unfold maybeAcquireProposalQuota
  rcases hb : ba.isSingleRequestLeaseRequest || ba.isSingleTransferLeaseRequest
  · rcases enabled
    · simp
    · rcases pool with _ | p
      · simp
      · simp [hrange]
  · simp

/-- Witness for `liveness_range_bypasses_quota` at a concrete input: even
with a live pool and an acquire outcome available, nothing is acquired. -/
theorem liveness_range_bypasses_quota_witness :
    maybeAcquireProposalQuota ⟨false, false⟩ true (some poolW) descLiveness
      (some 10, none) =
      { alloc := none, err := none, acquiredFromPool := false } :=
  liveness_range_bypasses_quota ⟨false, false⟩ true (some poolW)
    descLiveness (some 10, none) (by decide)

/-! ## Pool FIFO fairness -/

/-- **C10.** FIFO fairness of the pool's wait queue: one grant pass
completes a leading block of the queue in order — the granted waiters
followed by the remaining waiters is exactly the original queue — and when
any waiter remains, the one at the head does not fit in the tokens left, so
a later request, however small, is never completed while an earlier one
still waits. -/
theorem quota_pool_fifo (avail : Nat) (q : List Waiter) :
    (grantReady avail q).1 ++ (grantReady avail q).2.2 = q ∧
    (∀ w ws, (grantReady avail q).2.2 = w :: ws →
      (grantReady avail q).2.1 < w.amount) := by
  induction q generalizing avail with
  | nil => exact ⟨rfl, by intro w ws h; simp [grantReady] at h⟩
  | cons x xs ih =>
    by_cases hx : x.amount ≤ avail
    · have hg : grantReady avail (x :: xs) =
          (x :: (grantReady (avail - x.amount) xs).1,
            (grantReady (avail - x.amount) xs).2.1,
            (grantReady (avail - x.amount) xs).2.2) := by
        simp [grantReady, hx]
      rw [hg]
      refine ⟨?_, ?_⟩
      · simpa using (ih (avail - x.amount)).1
      · intro w ws h
        exact (ih (avail - x.amount)).2 w ws h
    · have hg : grantReady avail (x :: xs) = ([], avail, x :: xs) := by
        simp [grantReady, hx]
      rw [hg]
      refine ⟨rfl, ?_⟩
      intro w ws h
      cases h
      show avail < x.amount
      omega

/-- Witness for `quota_pool_fifo` at a concrete input: with 6 tokens and
waiters needing 5, 10 and 2, only the head is granted and the queue order
is preserved; the small final request does not skip the blocked one. -/
theorem quota_pool_fifo_witness :
    (grantReady 6 [⟨1, 5⟩, ⟨2, 10⟩, ⟨3, 2⟩]).1 ++
      (grantReady 6 [⟨1, 5⟩, ⟨2, 10⟩, ⟨3, 2⟩]).2.2 =
      [⟨1, 5⟩, ⟨2, 10⟩, ⟨3, 2⟩] ∧
    (grantReady 6 [⟨1, 5⟩, ⟨2, 10⟩, ⟨3, 2⟩]).2.1 <
      (⟨2, 10⟩ : Waiter).amount :=
  ⟨(quota_pool_fifo 6 [⟨1, 5⟩, ⟨2, 10⟩, ⟨3, 2⟩]).1,
    (quota_pool_fifo 6 [⟨1, 5⟩, ⟨2, 10⟩, ⟨3, 2⟩]).2 ⟨2, 10⟩ [⟨3, 2⟩]
      (by decide)⟩

/-! ## Reconciliation-loop lemmas -/

/-- A descriptor looked up by ID carries that ID. -/
theorem getReplicaDescriptorByID_id (desc : RangeDescriptor)
    (id : Nat) (rep : ReplicaDescriptor)
    (h : desc.getReplicaDescriptorByID id = some rep) :
    rep.replicaID = id := by
  have := List.find?_some h
  simpa using this

/-- One step of the `WithProgress` fold, characterised field by field: the
minimum index takes `min` with the peer's `Match` exactly when the peer
counts, and the tracking fields are zeroed exactly when the peer clears
the tracking for the currently tracked replica. -/
theorem progressStep_eq (r : ReplicaConfig) (st : ReplicaMu) (now : Nat)
    (ci : Nat) (acc : LoopState) (peer : Nat × Progress) :
    progressStep r st now ci acc peer =
      { minIndex :=
          if peerCounts r st now peer then min acc.minIndex peer.2.Match
          else acc.minIndex,
        lastReplicaAdded :=
          if clearsTracking r st now ci acc.lastReplicaAdded peer then 0
          else acc.lastReplicaAdded,
        lastReplicaAddedTime :=
          if clearsTracking r st now ci acc.lastReplicaAdded peer then 0
          else acc.lastReplicaAddedTime } := by
  rcases hfind : st.desc.getReplicaDescriptorByID peer.1 with _ | rep
  · simp [progressStep, peerCounts, clearsTracking, hfind]
  · have hrep : rep.replicaID = peer.1 :=
      getReplicaDescriptorByID_id _ _ _ hfind
    simp only [progressStep, hfind, hrep]
    by_cases hact : isFollowerActiveSince st.lastUpdateTimes peer.1 now
      r.rangeLeaseDuration
    · by_cases hbase : peer.2.Match < st.proposalQuotaBaseIndex
      · have hnle : ¬ st.proposalQuotaBaseIndex ≤ peer.2.Match :=
          Nat.not_le.mpr hbase
        simp [peerCounts, clearsTracking, hfind, hact, hbase, hnle]
      · have hle : st.proposalQuotaBaseIndex ≤ peer.2.Match :=
          Nat.not_lt.mp hbase
        by_cases hpaused : peer.1 ∈ st.pausedFollowers
        · simp [peerCounts, clearsTracking, hfind, hact, hbase, hpaused]
        · by_cases hpos : 0 < peer.2.Match
          · by_cases hmin : peer.2.Match < acc.minIndex
            · have hminle : ¬ acc.minIndex ≤ peer.2.Match :=
                Nat.not_le.mpr hmin
              by_cases heq : peer.1 = acc.lastReplicaAdded
              · by_cases hci : ci ≤ peer.2.Match <;>
                  simp [peerCounts, clearsTracking, hfind, hact, hbase,
                    hle, hpaused, hpos, hmin, hci, heq.symm, Nat.min_def,
                    hminle]
              · simp [peerCounts, clearsTracking, hfind, hact, hbase, hle,
                  hpaused, hpos, hmin, heq, Nat.min_def, hminle]
            · have hminle : acc.minIndex ≤ peer.2.Match :=
                Nat.not_lt.mp hmin
              by_cases heq : peer.1 = acc.lastReplicaAdded
              · by_cases hci : ci ≤ peer.2.Match
                · simp [peerCounts, clearsTracking, hfind, hact, hbase,
                    hle, hpaused, hpos, hmin, hci, heq.symm, Nat.min_def,
                    hminle]
                · simp [peerCounts, clearsTracking, hfind, hact, hbase,
                    hle, hpaused, hpos, hmin, hci, heq.symm, Nat.min_def,
                    hminle]
                  rw [heq]
              · simp [peerCounts, clearsTracking, hfind, hact, hbase, hle,
                  hpaused, hpos, hmin, heq, Nat.min_def, hminle]
          · by_cases heq : peer.1 = acc.lastReplicaAdded
            · by_cases hci : ci ≤ peer.2.Match
              · simp [peerCounts, clearsTracking, hfind, hact, hbase, hle,
                  hpaused, hpos, hci, heq.symm]
              · simp [peerCounts, clearsTracking, hfind, hact, hbase, hle,
                  hpaused, hpos, hci, heq.symm]
                rw [heq]
            · simp [peerCounts, clearsTracking, hfind, hact, hbase, hle,
                hpaused, hpos, heq]
    · simp [peerCounts, clearsTracking, hfind, hact]

/-- The loop's minimum index equals the spec-side formulation: the fold of
`min` over the `Match` indexes of exactly the peers that count. -/
theorem progressLoop_minIndex (r : ReplicaConfig) (st : ReplicaMu)
    (now : Nat) (ci : Nat) (peers : List (Nat × Progress))
    (acc : LoopState) :
    (progressLoop r st now ci peers acc).minIndex =
      (peers.filter (peerCounts r st now)).foldl
        (fun m p => min m p.2.Match) acc.minIndex := by
  induction peers generalizing acc with
  | nil => rfl
  | cons p ps ih =>
    show (progressLoop r st now ci ps
        (progressStep r st now ci acc p)).minIndex = _
    rw [ih, progressStep_eq]
    by_cases hc : peerCounts r st now p
    · simp [List.filter_cons, hc]
    · simp [List.filter_cons, hc]

/-- Folding `min` over any list never rises above the initial value. -/
theorem foldl_min_le (l : List (Nat × Progress)) (a : Nat) :
    l.foldl (fun m p => min m p.2.Match) a ≤ a := by
  induction l generalizing a with
  | nil => exact Nat.le_refl a
  | cons p ps ih =>
    exact Nat.le_trans (ih (min a p.2.Match)) (Nat.min_le_left _ _)

/-- Once the tracking fields are zero, the loop keeps them zero. -/
theorem progressLoop_tracking_zero (r : ReplicaConfig) (st : ReplicaMu)
    (now : Nat) (ci : Nat) (peers : List (Nat × Progress))
    (acc : LoopState) (h0 : acc.lastReplicaAdded = 0)
    (ht : acc.lastReplicaAddedTime = 0) :
    (progressLoop r st now ci peers acc).lastReplicaAdded = 0 ∧
    (progressLoop r st now ci peers acc).lastReplicaAddedTime = 0 := by
  induction peers generalizing acc with
  | nil => exact ⟨h0, ht⟩
  | cons p ps ih =>
    show (progressLoop r st now ci ps
        (progressStep r st now ci acc p)).lastReplicaAdded = 0 ∧
      (progressLoop r st now ci ps
        (progressStep r st now ci acc p)).lastReplicaAddedTime = 0
    rw [progressStep_eq]
    refine ih _ ?_ ?_
    · by_cases hcl : clearsTracking r st now ci acc.lastReplicaAdded p <;>
        simp [hcl, h0]
    · by_cases hcl : clearsTracking r st now ci acc.lastReplicaAdded p <;>
        simp [hcl, ht]

/-- If some enumerated peer clears the tracking for the currently tracked
replica, the loop ends with the tracking fields zeroed. -/
theorem progressLoop_clears (r : ReplicaConfig) (st : ReplicaMu)
    (now : Nat) (ci : Nat) (peers : List (Nat × Progress))
    (acc : LoopState) (a : Nat) (ha : acc.lastReplicaAdded = a)
    (h : ∃ peer ∈ peers, clearsTracking r st now ci a peer) :
    (progressLoop r st now ci peers acc).lastReplicaAdded = 0 ∧
    (progressLoop r st now ci peers acc).lastReplicaAddedTime = 0 := by
  induction peers generalizing acc with
  | nil => exact absurd h (by simp)
  | cons p ps ih =>
    show (progressLoop r st now ci ps
        (progressStep r st now ci acc p)).lastReplicaAdded = 0 ∧
      (progressLoop r st now ci ps
        (progressStep r st now ci acc p)).lastReplicaAddedTime = 0
    by_cases hcl : clearsTracking r st now ci a p
    · rw [progressStep_eq, ha]
      exact progressLoop_tracking_zero r st now ci ps _
        (by simp [hcl]) (by simp [hcl])
    · rcases h with ⟨peer, hmem, hpc⟩
      rcases List.mem_cons.mp hmem with hp | hp
      · exact absurd (hp ▸ hpc) hcl
      · refine ih (progressStep r st now ci acc p) ?_ ⟨peer, hp, hpc⟩
        rw [progressStep_eq, ha]
        simp [hcl]

/-- With no leader transition and a non-nil pool, the tick handler runs the
still-leader branch. -/
theorem still_leader_reduction (r : ReplicaConfig) (st : ReplicaMu)
    (status : BasicStatus) (peers : List (Nat × Progress))
    (now : Nat) (lastLeaderID : Nat) (pool : IntPool)
    (h1 : st.leaderID = lastLeaderID) (h3 : st.proposalQuota = some pool) :
    updateProposalQuotaRaftMuLocked r st status peers now lastLeaderID =
      stillLeaderTick r st status peers now pool := by
  simp [updateProposalQuotaRaftMuLocked, stillLeaderTick, reconciledState,
    h1, h3]

/-- The reconciled state, field by field, in terms of the loop result. -/
theorem reconciledState_eq (r : ReplicaConfig) (st : ReplicaMu)
    (status : BasicStatus) (peers : List (Nat × Progress))
    (now : Nat) (pool : IntPool) :
    reconciledState r st status peers now pool =
      (let acc := progressLoop r st now status.commit peers
        { minIndex := status.applied,
          lastReplicaAdded := st.lastReplicaAdded,
          lastReplicaAddedTime := st.lastReplicaAddedTime }
       { st with
         lastReplicaAdded := acc.lastReplicaAdded,
         lastReplicaAddedTime := acc.lastReplicaAddedTime,
         proposalQuota := some
           (if st.proposalQuotaBaseIndex < acc.minIndex then
             pool.release (st.quotaReleaseQueue.take
               (acc.minIndex - st.proposalQuotaBaseIndex))
            else pool),
         quotaReleaseQueue := st.quotaReleaseQueue.drop
           (acc.minIndex - st.proposalQuotaBaseIndex),
         proposalQuotaBaseIndex := st.proposalQuotaBaseIndex +
           (acc.minIndex - st.proposalQuotaBaseIndex) }) := by
  unfold reconciledState
  by_cases hlt : st.proposalQuotaBaseIndex <
      (progressLoop r st now status.commit peers
        { minIndex := status.applied,
          lastReplicaAdded := st.lastReplicaAdded,
          lastReplicaAddedTime := st.lastReplicaAddedTime }).minIndex
  · simp [hlt]
  · have h0 : (progressLoop r st now status.commit peers
        { minIndex := status.applied,
          lastReplicaAdded := st.lastReplicaAdded,
          lastReplicaAddedTime := st.lastReplicaAddedTime }).minIndex -
        st.proposalQuotaBaseIndex = 0 :=
      Nat.sub_eq_zero_of_le (Nat.not_lt.mp hlt)
    simp [hlt, h0]

/-- The loop's minimum never exceeds the applied index it starts from. -/
theorem loop_minIndex_le_applied (r : ReplicaConfig) (st : ReplicaMu)
    (status : BasicStatus) (peers : List (Nat × Progress))
    (now : Nat) :
    (progressLoop r st now status.commit peers
      { minIndex := status.applied,
        lastReplicaAdded := st.lastReplicaAdded,
        lastReplicaAddedTime := st.lastReplicaAddedTime }).minIndex ≤
      status.applied := by
  rw [progressLoop_minIndex]
  exact foldl_min_le _ _

/-- When the base/queue invariant holds on entry, the still-leader branch
never fatals: it returns the reconciled state, which satisfies the
invariant again and whose base index stays at or below the applied
index. -/
theorem stillLeaderTick_ok_of_invariant (r : ReplicaConfig)
    (st : ReplicaMu) (status : BasicStatus)
    (peers : List (Nat × Progress)) (now : Nat) (pool : IntPool)
    (hInv : st.proposalQuotaBaseIndex + st.quotaReleaseQueue.length =
      status.applied) :
    stillLeaderTick r st status peers now pool =
      .ok (reconciledState r st status peers now pool) none ∧
    (reconciledState r st status peers now pool).proposalQuotaBaseIndex +
      (reconciledState r st status peers now pool).quotaReleaseQueue.length
      = status.applied ∧
    (reconciledState r st status peers now pool).proposalQuotaBaseIndex ≤
      status.applied := by
  have hm := loop_minIndex_le_applied r st status peers now
  have hre := reconciledState_eq r st status peers now pool
  have hbase : (reconciledState r st status peers now
      pool).proposalQuotaBaseIndex = st.proposalQuotaBaseIndex +
      ((progressLoop r st now status.commit peers
        { minIndex := status.applied,
          lastReplicaAdded := st.lastReplicaAdded,
          lastReplicaAddedTime := st.lastReplicaAddedTime }).minIndex -
        st.proposalQuotaBaseIndex) := by
    rw [hre]
  have hqueue : (reconciledState r st status peers now
      pool).quotaReleaseQueue = st.quotaReleaseQueue.drop
      ((progressLoop r st now status.commit peers
        { minIndex := status.applied,
          lastReplicaAdded := st.lastReplicaAdded,
          lastReplicaAddedTime := st.lastReplicaAddedTime }).minIndex -
        st.proposalQuotaBaseIndex) := by
    rw [hre]
  have hlen : (reconciledState r st status peers now
      pool).quotaReleaseQueue.length = st.quotaReleaseQueue.length -
      ((progressLoop r st now status.commit peers
        { minIndex := status.applied,
          lastReplicaAdded := st.lastReplicaAdded,
          lastReplicaAddedTime := st.lastReplicaAddedTime }).minIndex -
        st.proposalQuotaBaseIndex) := by
    rw [hqueue, List.length_drop]
  obtain ⟨m, hmdef⟩ : ∃ m, (progressLoop r st now status.commit peers
      { minIndex := status.applied,
        lastReplicaAdded := st.lastReplicaAdded,
        lastReplicaAddedTime := st.lastReplicaAddedTime }).minIndex = m :=
    ⟨_, rfl⟩
  rw [hmdef] at hm hbase hlen
  have hinv2 : (reconciledState r st status peers now
      pool).proposalQuotaBaseIndex + (reconciledState r st status peers
      now pool).quotaReleaseQueue.length = status.applied := by
    rw [hbase, hlen]; omega
  refine ⟨?_, hinv2, by rw [hbase]; omega⟩
  unfold stillLeaderTick
  simp [hinv2]

/-! ## Reconciliation claims -/

/-- **C2.** On a tick with no leader transition and a live pool, after
reconciliation the base/queue invariant is asserted against the applied
index: the handler either returns normally with a state satisfying
`baseIndex + len(queue) = appliedIndex`, or fails fatally with the
assertion message. -/
theorem tick_invariant_asserted (r : ReplicaConfig) (st : ReplicaMu)
    (status : BasicStatus) (peers : List (Nat × Progress))
    (now : Nat) (lastLeaderID : Nat) (pool : IntPool)
    (h1 : st.leaderID = lastLeaderID) (h3 : st.proposalQuota = some pool) :
    (∃ st', updateProposalQuotaRaftMuLocked r st status peers now
        lastLeaderID = .ok st' none ∧
      st'.proposalQuotaBaseIndex + st'.quotaReleaseQueue.length =
        status.applied) ∨
    updateProposalQuotaRaftMuLocked r st status peers now lastLeaderID =
      .fatal assertMsg := by
  rw [still_leader_reduction r st status peers now lastLeaderID pool h1 h3]
  simp only [stillLeaderTick]
  by_cases h : (reconciledState r st status peers now
        pool).proposalQuotaBaseIndex + (reconciledState r st status peers
        now pool).quotaReleaseQueue.length ≠ status.applied
  · right
    rw [if_pos h]
  · left
    exact ⟨reconciledState r st status peers now pool, by rw [if_neg h],
      not_not.mp h⟩

/-- Witness for `tick_invariant_asserted` at a concrete input. -/
theorem tick_invariant_asserted_witness :
    (∃ st', updateProposalQuotaRaftMuLocked cfgW2 stC5
        { applied := 5, commit := 5 } [] 0 1 = .ok st' none ∧
      st'.proposalQuotaBaseIndex + st'.quotaReleaseQueue.length = 5) ∨
    updateProposalQuotaRaftMuLocked cfgW2 stC5
      { applied := 5, commit := 5 } [] 0 1 = .fatal assertMsg :=
  tick_invariant_asserted cfgW2 stC5 { applied := 5, commit := 5 } [] 0 1
    poolW rfl rfl

/-- **C9.** In the still-leader path, when the base/queue invariant holds
on entry, the computed minimum index never exceeds the applied index, the
release count never exceeds the queue length (so the prefix release stays
in bounds), the assertion cannot fire, and the base index never advances
past the applied index. -/
theorem release_count_bounded (r : ReplicaConfig) (st : ReplicaMu)
    (status : BasicStatus) (peers : List (Nat × Progress))
    (now : Nat) (lastLeaderID : Nat) (pool : IntPool)
    (h1 : st.leaderID = lastLeaderID) (h3 : st.proposalQuota = some pool)
    (hInv : st.proposalQuotaBaseIndex + st.quotaReleaseQueue.length =
      status.applied) :
    (progressLoop r st now status.commit peers
      { minIndex := status.applied,
        lastReplicaAdded := st.lastReplicaAdded,
        lastReplicaAddedTime := st.lastReplicaAddedTime }).minIndex ≤
      status.applied ∧
    (progressLoop r st now status.commit peers
      { minIndex := status.applied,
        lastReplicaAdded := st.lastReplicaAdded,
        lastReplicaAddedTime := st.lastReplicaAddedTime }).minIndex -
      st.proposalQuotaBaseIndex ≤ st.quotaReleaseQueue.length ∧
    updateProposalQuotaRaftMuLocked r st status peers now lastLeaderID =
      .ok (reconciledState r st status peers now pool) none ∧
    (reconciledState r st status peers now pool).proposalQuotaBaseIndex ≤
      status.applied ∧
    (reconciledState r st status peers now pool).proposalQuotaBaseIndex +
      (reconciledState r st status peers now pool).quotaReleaseQueue.length
      = status.applied := by
  have hm := loop_minIndex_le_applied r st status peers now
  have hok := stillLeaderTick_ok_of_invariant r st status peers now pool
    hInv
  refine ⟨hm, by omega, ?_, hok.2.2, hok.2.1⟩
  rw [still_leader_reduction r st status peers now lastLeaderID pool h1 h3]
  exact hok.1

/-- Witness for `release_count_bounded` at a concrete input. -/
theorem release_count_bounded_witness :
    (progressLoop cfgW1 stC1 4 5 [(1, ⟨5⟩), (2, ⟨4⟩)]
      { minIndex := 5, lastReplicaAdded := 0,
        lastReplicaAddedTime := 0 }).minIndex ≤ 5 ∧
    (progressLoop cfgW1 stC1 4 5 [(1, ⟨5⟩), (2, ⟨4⟩)]
      { minIndex := 5, lastReplicaAdded := 0,
        lastReplicaAddedTime := 0 }).minIndex - 3 ≤ 2 ∧
    updateProposalQuotaRaftMuLocked cfgW1 stC1 { applied := 5, commit := 5 }
      [(1, ⟨5⟩), (2, ⟨4⟩)] 4 1 =
      .ok (reconciledState cfgW1 stC1 { applied := 5, commit := 5 }
        [(1, ⟨5⟩), (2, ⟨4⟩)] 4 poolW) none ∧
    (reconciledState cfgW1 stC1 { applied := 5, commit := 5 }
      [(1, ⟨5⟩), (2, ⟨4⟩)] 4 poolW).proposalQuotaBaseIndex ≤ 5 ∧
    (reconciledState cfgW1 stC1 { applied := 5, commit := 5 }
      [(1, ⟨5⟩), (2, ⟨4⟩)] 4 poolW).proposalQuotaBaseIndex +
      (reconciledState cfgW1 stC1 { applied := 5, commit := 5 }
        [(1, ⟨5⟩), (2, ⟨4⟩)] 4 poolW).quotaReleaseQueue.length = 5 :=
  release_count_bounded cfgW1 stC1 { applied := 5, commit := 5 }
    [(1, ⟨5⟩), (2, ⟨4⟩)] 4 1 poolW rfl rfl (by decide)

/-- **C1.** On a tick where the replica remains leader (and the base/queue
invariant holds on entry), the reconciler's minimum index is exactly the
spec-side `quorumMinIndex`: the applied index lowered to `Match` over the
peers that are in the descriptor, live, at or past the base index, not
paused, and have positive `Match`.  If it exceeds the base index, exactly
that many leading queue entries are released back to the pool and the base
index advances to it; otherwise the queue, base index and pool are
unchanged. -/
theorem reconciler_release_spec (r : ReplicaConfig) (st : ReplicaMu)
    (status : BasicStatus) (peers : List (Nat × Progress))
    (now : Nat) (lastLeaderID : Nat) (pool : IntPool)
    (h1 : st.leaderID = lastLeaderID) (h3 : st.proposalQuota = some pool)
    (hInv : st.proposalQuotaBaseIndex + st.quotaReleaseQueue.length =
      status.applied) :
    ∃ st', updateProposalQuotaRaftMuLocked r st status peers now
        lastLeaderID = .ok st' none ∧
      (st.proposalQuotaBaseIndex <
          quorumMinIndex r st now peers status.applied →
        st'.proposalQuotaBaseIndex =
          quorumMinIndex r st now peers status.applied ∧
        st'.quotaReleaseQueue = st.quotaReleaseQueue.drop
          (quorumMinIndex r st now peers status.applied -
            st.proposalQuotaBaseIndex) ∧
        st'.proposalQuota = some (pool.release (st.quotaReleaseQueue.take
          (quorumMinIndex r st now peers status.applied -
            st.proposalQuotaBaseIndex)))) ∧
      (¬ st.proposalQuotaBaseIndex <
          quorumMinIndex r st now peers status.applied →
        st'.proposalQuotaBaseIndex = st.proposalQuotaBaseIndex ∧
        st'.quotaReleaseQueue = st.quotaReleaseQueue ∧
        st'.proposalQuota = some pool) := by
  have hok := stillLeaderTick_ok_of_invariant r st status peers now pool
    hInv
  have hq : (progressLoop r st now status.commit peers
      { minIndex := status.applied,
        lastReplicaAdded := st.lastReplicaAdded,
        lastReplicaAddedTime := st.lastReplicaAddedTime }).minIndex =
      quorumMinIndex r st now peers status.applied := by
    rw [progressLoop_minIndex]; rfl
  have hre := reconciledState_eq r st status peers now pool
  refine ⟨reconciledState r st status peers now pool, ?_, ?_, ?_⟩
  · rw [still_leader_reduction r st status peers now lastLeaderID pool h1
      h3]
    exact hok.1
  · intro hlt
    rw [hre]
    simp only [hq]
    rw [if_pos hlt]
    exact ⟨by omega, trivial, rfl⟩
  · intro hlt
    rw [hre]
    simp only [hq]
    rw [if_neg hlt]
    have h0 : quorumMinIndex r st now peers status.applied -
        st.proposalQuotaBaseIndex = 0 :=
      Nat.sub_eq_zero_of_le (Nat.not_lt.mp hlt)
    rw [h0]
    exact ⟨rfl, List.drop_zero _, rfl⟩

/-- Witness for `reconciler_release_spec` at a concrete input: base 3,
queue `[10, 20]`, applied 5, peers matched at 5 and 4, so one entry is
released and the base advances to 4. -/
theorem reconciler_release_spec_witness :
    ∃ st', updateProposalQuotaRaftMuLocked cfgW1 stC1
        { applied := 5, commit := 5 } [(1, ⟨5⟩), (2, ⟨4⟩)] 4 1 =
        .ok st' none ∧
      (stC1.proposalQuotaBaseIndex <
          quorumMinIndex cfgW1 stC1 4 [(1, ⟨5⟩), (2, ⟨4⟩)] 5 →
        st'.proposalQuotaBaseIndex =
          quorumMinIndex cfgW1 stC1 4 [(1, ⟨5⟩), (2, ⟨4⟩)] 5 ∧
        st'.quotaReleaseQueue = stC1.quotaReleaseQueue.drop
          (quorumMinIndex cfgW1 stC1 4 [(1, ⟨5⟩), (2, ⟨4⟩)] 5 -
            stC1.proposalQuotaBaseIndex) ∧
        st'.proposalQuota = some (poolW.release
          (stC1.quotaReleaseQueue.take
            (quorumMinIndex cfgW1 stC1 4 [(1, ⟨5⟩), (2, ⟨4⟩)] 5 -
              stC1.proposalQuotaBaseIndex)))) ∧
      (¬ stC1.proposalQuotaBaseIndex <
          quorumMinIndex cfgW1 stC1 4 [(1, ⟨5⟩), (2, ⟨4⟩)] 5 →
        st'.proposalQuotaBaseIndex = stC1.proposalQuotaBaseIndex ∧
        st'.quotaReleaseQueue = stC1.quotaReleaseQueue ∧
        st'.proposalQuota = some poolW) :=
  reconciler_release_spec cfgW1 stC1 { applied := 5, commit := 5 }
    [(1, ⟨5⟩), (2, ⟨4⟩)] 4 1 poolW rfl rfl (by decide)

/-! ## C5: follower holding a pool is not detected -/

/-- **C5 (counterexample).** A tick with no leader transition on replica 2
(leader is replica 1) whose state still holds a live pool does not fail
fatally: the handler runs the reconciliation path and returns normally. -/
theorem follower_with_pool_not_fatal :
    updateProposalQuotaRaftMuLocked cfgW2 stC5
      { applied := 5, commit := 5 } [] 0 1 = .ok stC5 none ∧
    cfgW2.replicaID ≠ stC5.leaderID ∧ stC5.proposalQuota ≠ none := by
  refine ⟨by decide, by decide, by decide⟩

/-- **C5 (amended).** With no leader transition, the only fatal check is
for a leader with a nil pool; a non-leader holding a non-nil pool is not
detected and proceeds through the still-leader reconciliation path,
returning normally whenever the base/queue invariant holds on entry. -/
theorem no_transition_pool_checks (r : ReplicaConfig) (st : ReplicaMu)
    (status : BasicStatus) (peers : List (Nat × Progress))
    (now : Nat) (lastLeaderID : Nat)
    (h1 : st.leaderID = lastLeaderID) :
    (st.proposalQuota = none → r.replicaID = st.leaderID →
      updateProposalQuotaRaftMuLocked r st status peers now lastLeaderID =
        .fatal "leader has uninitialized proposalQuota pool") ∧
    (∀ pool, st.proposalQuota = some pool → r.replicaID ≠ st.leaderID →
      st.proposalQuotaBaseIndex + st.quotaReleaseQueue.length =
        status.applied →
      ∃ st', updateProposalQuotaRaftMuLocked r st status peers now
        lastLeaderID = .ok st' none) := by
  constructor
  · intro hpn hld
    simp [updateProposalQuotaRaftMuLocked, h1, hpn, hld]
  · intro pool h3 _ hInv
    refine ⟨reconciledState r st status peers now pool, ?_⟩
    rw [still_leader_reduction r st status peers now lastLeaderID pool h1
      h3]
    exact (stillLeaderTick_ok_of_invariant r st status peers now pool
      hInv).1

/-- Witness for `no_transition_pool_checks` at concrete inputs: a leader
with a nil pool is fatal, and a follower with a live pool returns
normally. -/
theorem no_transition_pool_checks_witness :
    updateProposalQuotaRaftMuLocked cfgW1 stW3
      { applied := 5, commit := 5 } [] 0 1 =
      .fatal "leader has uninitialized proposalQuota pool" ∧
    ∃ st', updateProposalQuotaRaftMuLocked cfgW2 stC5
      { applied := 5, commit := 5 } [] 0 1 = .ok st' none :=
  ⟨(no_transition_pool_checks cfgW1 stW3 { applied := 5, commit := 5 } []
      0 1 rfl).1 rfl rfl,
    (no_transition_pool_checks cfgW2 stC5 { applied := 5, commit := 5 } []
      0 1 rfl).2 poolW rfl (by decide) (by decide)⟩

/-! ## C8: clearing the new-replica tracking fields -/

/-- **C8 (counterexample).** A still-leader tick whose most recently added
replica (replica 2) has `Match = 6 ≥ commit = 3` but is paused does not
clear the tracking fields: the state is returned unchanged, with
`lastReplicaAdded` still 2. -/
theorem lastReplicaAdded_not_cleared_when_paused :
    updateProposalQuotaRaftMuLocked cfgW1 stC8
      { applied := 5, commit := 3 } [(2, ⟨6⟩)] 4 1 = .ok stC8 none ∧
    stC8.lastReplicaAdded = 2 ∧ stC8.lastReplicaAddedTime = 9 := by
  refine ⟨by decide, by decide, by decide⟩

/-- **C8 (amended).** On a still-leader tick (with the entry invariant),
if some enumerated peer record belongs to the most recently added replica
and passes the reconciler's filters — present in the descriptor, live, at
or past the base index, not paused — and has `Match ≥ commitIndex`, then
the tick clears both new-replica tracking fields. -/
theorem lastReplicaAdded_cleared_spec (r : ReplicaConfig) (st : ReplicaMu)
    (status : BasicStatus) (peers : List (Nat × Progress))
    (now : Nat) (lastLeaderID : Nat) (pool : IntPool)
    (h1 : st.leaderID = lastLeaderID) (h3 : st.proposalQuota = some pool)
    (hInv : st.proposalQuotaBaseIndex + st.quotaReleaseQueue.length =
      status.applied)
    (hc : ∃ peer ∈ peers,
      clearsTracking r st now status.commit st.lastReplicaAdded peer) :
    ∃ st', updateProposalQuotaRaftMuLocked r st status peers now
        lastLeaderID = .ok st' none ∧
      st'.lastReplicaAdded = 0 ∧ st'.lastReplicaAddedTime = 0 := by
  have hok := stillLeaderTick_ok_of_invariant r st status peers now pool
    hInv
  have hcl := progressLoop_clears r st now status.commit peers
    { minIndex := status.applied,
      lastReplicaAdded := st.lastReplicaAdded,
      lastReplicaAddedTime := st.lastReplicaAddedTime }
    st.lastReplicaAdded rfl hc
  have hre := reconciledState_eq r st status peers now pool
  refine ⟨reconciledState r st status peers now pool, ?_, ?_, ?_⟩
  · rw [still_leader_reduction r st status peers now lastLeaderID pool h1
      h3]
    exact hok.1
  · rw [hre]
    exact hcl.1
  · rw [hre]
    exact hcl.2

/-- Witness for `lastReplicaAdded_cleared_spec` at a concrete input. -/
theorem lastReplicaAdded_cleared_spec_witness :
    ∃ st', updateProposalQuotaRaftMuLocked cfgW1 stC8b
        { applied := 5, commit := 3 } [(2, ⟨6⟩)] 4 1 = .ok st' none ∧
      st'.lastReplicaAdded = 0 ∧ st'.lastReplicaAddedTime = 0 :=
  lastReplicaAdded_cleared_spec cfgW1 stC8b { applied := 5, commit := 3 }
    [(2, ⟨6⟩)] 4 1 poolW rfl rfl (by decide)
    ⟨(2, ⟨6⟩), by decide, by decide⟩

end ProposalQuota
